import Mathlib

/-!
Verification development for the story-mode narrative pipeline of
xiaozhi-esp32-server: the reorder-buffer sequencer
(storyRespProcessor._put_audio_to_queue_in_order and
storySession.set_stage_seg_count), the structured response parsing
(prompt_template.PromptTemplate.parse and AttrDict), the voice assignment
policy (_get_role_voice / _get_narrator_voice in both processors) and the
continuation completion handlers (storyModeHandler).

Python dicts are modelled as association lists with unique keys (every
update goes through aset, which replaces in place), Python json.loads as an
executable JSON decoder, random.choice as an explicit pick index, and
Python hash()/str() on opaque values as oracle parameters.
-/

/-! ## Association lists: the model of a Python dict.

dget finds the value for a key, aset replaces in place or appends (the
update order of a Python dict), aerase removes a key (dict.pop). -/

def dget {κ α : Type} [DecidableEq κ] : List (κ × α) → κ → Option α
  | [], _ => none
  | (k, v) :: l, j => if j = k then some v else dget l j

def aset {κ α : Type} [DecidableEq κ] : List (κ × α) → κ → α → List (κ × α)
  | [], k, v => [(k, v)]
  | (k0, v0) :: l, k, v => if k = k0 then (k0, v) :: l else (k0, v0) :: aset l k v

def aerase {κ α : Type} [DecidableEq κ] : List (κ × α) → κ → List (κ × α)
  | [], _ => []
  | (k0, v0) :: l, k => if k = k0 then l else (k0, v0) :: aerase l k

theorem dget_mem {κ α : Type} [DecidableEq κ] :
    ∀ (l : List (κ × α)) (k : κ) (v : α), dget l k = some v → (k, v) ∈ l
  | [], _, _, h => by simp [dget] at h
  | (k0, v0) :: l, k, v, h => by
    by_cases hk : k = k0
    · subst hk
      simp [dget] at h
      simp [h]
    · simp [dget, hk] at h
      exact List.mem_cons_of_mem _ (dget_mem l k v h)

theorem mem_aset {κ α : Type} [DecidableEq κ] :
    ∀ (l : List (κ × α)) (k : κ) (v : α) (p : κ × α),
      p ∈ aset l k v → p = (k, v) ∨ p ∈ l
  | [], k, v, p, h => by simp [aset] at h; exact Or.inl h
  | (k0, v0) :: l, k, v, p, h => by
    by_cases hk : k = k0
    · subst hk
      simp [aset] at h
      rcases h with h | h
      · exact Or.inl (by simp [h])
      · exact Or.inr (List.mem_cons_of_mem _ h)
    · simp [aset, hk] at h
      rcases h with h | h
      · exact Or.inr (by simp [h])
      · rcases mem_aset l k v p h with h1 | h1
        · exact Or.inl h1
        · exact Or.inr (List.mem_cons_of_mem _ h1)

theorem mem_aerase {κ α : Type} [DecidableEq κ] :
    ∀ (l : List (κ × α)) (k : κ) (p : κ × α), p ∈ aerase l k → p ∈ l
  | [], _, _, h => by simp [aerase] at h
  | (k0, v0) :: l, k, p, h => by
    by_cases hk : k = k0
    · subst hk
      simp [aerase] at h
      exact List.mem_cons_of_mem _ h
    · simp [aerase, hk] at h
      rcases h with h | h
      · simp [h]
      · exact List.mem_cons_of_mem _ (mem_aerase l k p h)

theorem dget_aset_self {κ α : Type} [DecidableEq κ] :
    ∀ (l : List (κ × α)) (k : κ) (v : α), dget (aset l k v) k = some v
  | [], k, v => by simp [aset, dget]
  | (k0, v0) :: l, k, v => by
    by_cases hk : k = k0
    · subst hk; simp [aset, dget]
    · simp [aset, dget, hk]
      exact dget_aset_self l k v

theorem dget_aset_ne {κ α : Type} [DecidableEq κ] :
    ∀ (l : List (κ × α)) (k j : κ) (v : α), j ≠ k → dget (aset l k v) j = dget l j
  | [], k, j, v, h => by simp [aset, dget, h]
  | (k0, v0) :: l, k, j, v, h => by
    by_cases hk : k = k0
    · subst hk; simp [aset, dget, h]
    · by_cases hj : j = k0
      · subst hj; simp [aset, dget, hk]
      · simp [aset, dget, hk, hj]
        exact dget_aset_ne l k j v h

/-! ## JSON values and a model of Python json.loads.

Numbers keep their source lexeme (the claims under study never compare
numeric values across spellings). Objects are built with aset, so the
decoded object has unique keys with last-value-wins, as a Python dict
built by json.loads does. -/

inductive JVal where
  | jnull : JVal
  | jbool : Bool → JVal
  | jnum : String → JVal
  | jstr : String → JVal
  | jarr : List JVal → JVal
  | jobj : List (String × JVal) → JVal

def jsonWsChar (c : Char) : Bool :=
  c = ' ' || c = '\t' || c = '\n' || c = '\r'

def skipWs : List Char → List Char
  | [] => []
  | c :: cs => if jsonWsChar c then skipWs cs else c :: cs

def hexVal (c : Char) : Option Nat :=
  if '0' ≤ c ∧ c ≤ '9' then some (c.toNat - '0'.toNat)
  else if 'a' ≤ c ∧ c ≤ 'f' then some (c.toNat - 'a'.toNat + 10)
  else if 'A' ≤ c ∧ c ≤ 'F' then some (c.toNat - 'A'.toNat + 10)
  else none

/-- Scans a JSON string body after the opening quote; returns the decoded
content and the remainder after the closing quote. Unescaped control
characters are rejected, as Python json.loads does in strict mode. -/
def scanJStr : List Char → Option (List Char × List Char)
  | [] => none
  | '"' :: cs => some ([], cs)
  | '\\' :: e :: cs =>
    match e with
    | '"' => (scanJStr cs).map (fun p => ('"' :: p.1, p.2))
    | '\\' => (scanJStr cs).map (fun p => ('\\' :: p.1, p.2))
    | '/' => (scanJStr cs).map (fun p => ('/' :: p.1, p.2))
    | 'b' => (scanJStr cs).map (fun p => ('\x08' :: p.1, p.2))
    | 'f' => (scanJStr cs).map (fun p => ('\x0c' :: p.1, p.2))
    | 'n' => (scanJStr cs).map (fun p => ('\n' :: p.1, p.2))
    | 'r' => (scanJStr cs).map (fun p => ('\r' :: p.1, p.2))
    | 't' => (scanJStr cs).map (fun p => ('\t' :: p.1, p.2))
    | 'u' =>
      match cs with
      | h1 :: h2 :: h3 :: h4 :: cs2 =>
        match hexVal h1, hexVal h2, hexVal h3, hexVal h4 with
        | some a, some b, some c, some d =>
          (scanJStr cs2).map (fun p =>
            (Char.ofNat (((a * 16 + b) * 16 + c) * 16 + d) :: p.1, p.2))
        | _, _, _, _ => none
      | _ => none
    | _ => none
  | c :: cs => if c.toNat < 32 then none else (scanJStr cs).map (fun p => (c :: p.1, p.2))

def takeDigits (cs : List Char) : List Char × List Char :=
  (cs.takeWhile Char.isDigit, cs.dropWhile Char.isDigit)

/-- Scans a JSON number lexeme (without a leading sign); returns the lexeme
and the remainder. Leading zeros are rejected per the JSON grammar. -/
def scanJNumBody (cs : List Char) : Option (List Char × List Char) :=
  match cs with
  | [] => none
  | c :: cs1 =>
    if c = '0' then
      match cs1 with
      | d :: _ => if d.isDigit then none else scanJNumTail ['0'] cs1
      | [] => some (['0'], [])
    else if c.isDigit then
      let (ds, rest) := takeDigits cs1
      scanJNumTail (c :: ds) rest
    else none
where
  scanJNumTail (intPart : List Char) (cs : List Char) : Option (List Char × List Char) :=
    let (fracPart, cs2) :=
      match cs with
      | '.' :: cs1 =>
        let (ds, rest) := takeDigits cs1
        if ds.isEmpty then (none, cs) else (some ('.' :: ds), rest)
      | _ => (none, cs)
    match fracPart with
    | none =>
      match scanJExp cs2 with
      | some (ePart, cs3) => some (intPart ++ ePart, cs3)
      | none => some (intPart, cs2)
    | some fp =>
      match scanJExp cs2 with
      | some (ePart, cs3) => some (intPart ++ fp ++ ePart, cs3)
      | none => some (intPart ++ fp, cs2)
  scanJExp (cs : List Char) : Option (List Char × List Char) :=
    match cs with
    | e :: cs1 =>
      if e = 'e' ∨ e = 'E' then
        match cs1 with
        | s :: cs2 =>
          if s = '+' ∨ s = '-' then
            let (ds, rest) := takeDigits cs2
            if ds.isEmpty then none else some (e :: s :: ds, rest)
          else
            let (ds, rest) := takeDigits cs1
            if ds.isEmpty then none else some (e :: ds, rest)
        | [] => none
      else none
    | [] => none

/-- Inserting a field ahead of the already-decoded later fields with Python
dict semantics: a repeated name keeps the position of its first occurrence
and the value of its last occurrence. -/
def jfieldInsert (k : String) (v : JVal) (fs : List (String × JVal)) : List (String × JVal) :=
  match dget fs k with
  | some v2 => (k, v2) :: aerase fs k
  | none => (k, v) :: fs

mutual

/-- Fuel-indexed JSON value reader: one unit of fuel is consumed per nesting
step, so input length plus one is always sufficient fuel. -/
def parseJV : Nat → List Char → Option (JVal × List Char)
  | 0, _ => none
  | fuel + 1, cs =>
    match skipWs cs with
    | 'n' :: 'u' :: 'l' :: 'l' :: r => some (.jnull, r)
    | 't' :: 'r' :: 'u' :: 'e' :: r => some (.jbool true, r)
    | 'f' :: 'a' :: 'l' :: 's' :: 'e' :: r => some (.jbool false, r)
    | 'N' :: 'a' :: 'N' :: r => some (.jnum "NaN", r)
    | 'I' :: 'n' :: 'f' :: 'i' :: 'n' :: 'i' :: 't' :: 'y' :: r => some (.jnum "Infinity", r)
    | '"' :: r => (scanJStr r).map (fun p => (.jstr (String.mk p.1), p.2))
    | '\x7b' :: r =>
      (match skipWs r with
       | '\x7d' :: r2 => some (.jobj [], r2)
       | _ => (parseJFields fuel r).map (fun p => (.jobj p.1, p.2)))
    | '[' :: r =>
      (match skipWs r with
       | ']' :: r2 => some (.jarr [], r2)
       | _ => (parseJItems fuel r).map (fun p => (.jarr p.1, p.2)))
    | '-' :: 'I' :: 'n' :: 'f' :: 'i' :: 'n' :: 'i' :: 't' :: 'y' :: r =>
      some (.jnum "-Infinity", r)
    | '-' :: r =>
      (scanJNumBody r).map (fun p => (.jnum (String.mk ('-' :: p.1)), p.2))
    | c :: r =>
      if c.isDigit then
        (scanJNumBody (c :: r)).map (fun p => (.jnum (String.mk p.1), p.2))
      else none
    | [] => none

/-- Reads the members of an object after at least one is known to follow;
fields are folded with aset so that a repeated name keeps the position of
its first occurrence and the last value, like a Python dict. -/
def parseJFields : Nat → List Char → Option (List (String × JVal) × List Char)
  | 0, _ => none
  | fuel + 1, cs =>
    match skipWs cs with
    | '"' :: r =>
      match scanJStr r with
      | some (key, r1) =>
        (match skipWs r1 with
         | ':' :: r2 =>
           match parseJV fuel r2 with
           | some (v, r3) =>
             (match skipWs r3 with
              | ',' :: r4 =>
                (parseJFields fuel r4).map (fun p =>
                  (jfieldInsert (String.mk key) v p.1, p.2))
              | '\x7d' :: r4 => some ([(String.mk key, v)], r4)
              | _ => none)
           | none => none
         | _ => none)
      | none => none
    | _ => none

def parseJItems : Nat → List Char → Option (List JVal × List Char)
  | 0, _ => none
  | fuel + 1, cs =>
    match parseJV fuel cs with
    | some (v, r) =>
      (match skipWs r with
       | ',' :: r2 => (parseJItems fuel r2).map (fun p => (v :: p.1, p.2))
       | ']' :: r2 => some ([v], r2)
       | _ => none)
    | none => none

end

/-- Model of Python json.loads on a character list: decode one value,
then require only whitespace to remain (json.loads raises on extra data). -/
def jdecL (cs : List Char) : Option JVal :=
  match parseJV (cs.length + 1) cs with
  | some (v, rest) => if skipWs rest = [] then some v else none
  | none => none

def jsonDecode (s : String) : Option JVal :=
  jdecL s.toList

/-! ## The reorder-buffer sequencer.

Model of storySession (tts_stage_seg_count, incr_text_index) together with
storyRespProcessor._put_audio_to_queue_in_order. Both operations run under
session.tts_stage_dict_lock, so a concurrent execution is a sequence of
atomic setCount/report calls in an arbitrary order. Stage keys are str(i)
in Python; str is injective on the integers used, so Nat keys are used
directly. Each emission to conn.tts_queue is recorded together with the
(stage, seg) pair it was popped from. -/

structure Entry where
  audio : String
  text : String
deriving DecidableEq

structure Emission where
  stage : Nat
  seg : Nat
  entry : Entry
  idx : Int
deriving DecidableEq

structure SeqState where
  buffer : List (Nat × List (Nat × Entry))
  nextSeg : List (Nat × Nat)
  nextStage : Nat
  segCount : List (Nat × Nat)
  textIndex : Int
  queue : List Emission
deriving DecidableEq

def seqInit : SeqState :=
  { buffer := [], nextSeg := [], nextStage := 0, segCount := [], textIndex := -1, queue := [] }

/-- One iteration of the while loop in _put_audio_to_queue_in_order: none
when the loop guard fails; some (st1, true) after a pop that keeps looping;
some (st1, false) after a pop that reaches the stage's segment count,
advances next_play_stage_index and leaves the loop by the break. -/
def drainIter (cur : Nat) (st : SeqState) : Option (SeqState × Bool) :=
  match dget st.buffer cur with
  | none => none
  | some inner =>
    let k := (dget st.nextSeg cur).getD 0
    match dget inner k with
    | none => none
    | some e =>
      let st1 : SeqState :=
        { buffer := aset st.buffer cur (aerase inner k)
          nextSeg := aset st.nextSeg cur (k + 1)
          nextStage := st.nextStage
          segCount := st.segCount
          textIndex := st.textIndex + 1
          queue := st.queue ++ [{ stage := cur, seg := k, entry := e, idx := st.textIndex + 1 }] }
      match dget st.segCount cur with
      | some c => if c ≤ k + 1 then some ({ st1 with nextStage := cur + 1 }, false) else some (st1, true)
      | none => some (st1, true)

/-- The while loop. cur_stage_key is computed once before the loop and never
recomputed, so cur is a fixed parameter. Each iteration removes one entry
from the buffered map of stage cur, so fuel equal to that map's size plus
one never runs out before the guard fails or the break fires. -/
def drainLoop : Nat → Nat → SeqState → SeqState
  | 0, _, st => st
  | fuel + 1, cur, st =>
    match drainIter cur st with
    | none => st
    | some (st1, true) => drainLoop fuel cur st1
    | some (st1, false) => st1

/-- The buffering half of _put_audio_to_queue_in_order: initialise the
stage's buffer map and play cursor if absent, then record the segment. -/
def bufferReport (st : SeqState) (s i : Nat) (e : Entry) : SeqState :=
  let buf0 := if (dget st.buffer s).isSome then st.buffer else aset st.buffer s []
  let ns0 := if (dget st.nextSeg s).isSome then st.nextSeg else aset st.nextSeg s 0
  let inner := (dget buf0 s).getD []
  { st with buffer := aset buf0 s (aset inner i e), nextSeg := ns0 }

/-- reportSegment: the body of _put_audio_to_queue_in_order. Records the
segment, then drains from the current active stage. -/
def stepReport (st : SeqState) (s i : Nat) (e : Entry) : SeqState :=
  let st1 := bufferReport st s i e
  drainLoop (((dget st1.buffer st1.nextStage).getD []).length + 1) st1.nextStage st1

/-- reportSegmentCount: storySession.set_stage_seg_count records the count
and returns; it performs no draining. -/
def stepSetCount (st : SeqState) (s c : Nat) : SeqState :=
  { st with segCount := aset st.segCount s c }

inductive SeqEv where
  | setCount : Nat → Nat → SeqEv
  | report : Nat → Nat → Entry → SeqEv
deriving DecidableEq

def seqStep (st : SeqState) : SeqEv → SeqState
  | .setCount s c => stepSetCount st s c
  | .report s i e => stepReport st s i e

def runSeq (evs : List SeqEv) : SeqState :=
  evs.foldl seqStep seqInit

def emittedPairs (st : SeqState) : List (Nat × Nat) :=
  st.queue.map (fun em => (em.stage, em.seg))

def reportedPairs (evs : List SeqEv) : List (Nat × Nat) :=
  evs.filterMap (fun ev =>
    match ev with
    | .report s i _ => some (s, i)
    | .setCount _ _ => none)

def lexLt (p q : Nat × Nat) : Prop :=
  p.1 < q.1 ∨ (p.1 = q.1 ∧ p.2 < q.2)

def playFrontier (st : SeqState) : Nat × Nat :=
  (st.nextStage, (dget st.nextSeg st.nextStage).getD 0)

/-- The inductive state invariant of the sequencer: emissions are strictly
lexicographically sorted and stay below the play frontier, play cursors of
stages beyond the active one are untouched, and every emitted or buffered
entry stems from a report event of the processed history. -/
structure SeqInv (evs : List SeqEv) (st : SeqState) : Prop where
  sorted : List.Pairwise lexLt (emittedPairs st)
  below : ∀ p ∈ emittedPairs st, lexLt p (playFrontier st)
  hiZero : ∀ s, st.nextStage < s → (dget st.nextSeg s).getD 0 = 0
  srcQ : ∀ em ∈ st.queue, SeqEv.report em.stage em.seg em.entry ∈ evs
  srcB : ∀ p ∈ st.buffer, ∀ q ∈ p.2, SeqEv.report p.1 q.1 q.2 ∈ evs

theorem SeqInv.mono {evs evs2 : List SeqEv} {st : SeqState}
    (h : SeqInv evs st) (hsub : ∀ ev ∈ evs, ev ∈ evs2) : SeqInv evs2 st where
  sorted := h.sorted
  below := h.below
  hiZero := h.hiZero
  srcQ := fun em hm => hsub _ (h.srcQ em hm)
  srcB := fun p hp q hq => hsub _ (h.srcB p hp q hq)

theorem seqInit_inv : SeqInv [] seqInit where
  sorted := by simp [seqInit, emittedPairs]
  below := by simp [seqInit, emittedPairs]
  hiZero := by intro s _; simp [seqInit, dget]
  srcQ := by simp [seqInit]
  srcB := by simp [seqInit]

theorem lexLt_trans_succ {p : Nat × Nat} {c k : Nat} (h : lexLt p (c, k)) :
    lexLt p (c, k + 1) := by
  rcases h with h | ⟨h1, h2⟩
  · exact Or.inl h
  · exact Or.inr ⟨h1, Nat.lt_succ_of_lt h2⟩

theorem lexLt_stage_lt {p : Nat × Nat} {c k m : Nat} (h : lexLt p (c, k)) :
    lexLt p (c + 1, m) := by
  rcases h with h | ⟨h1, _⟩
  · exact Or.inl (Nat.lt_succ_of_lt h)
  · exact Or.inl (by omega)

theorem drainIter_inv {evs : List SeqEv} {st st1 : SeqState} {cur : Nat} {cont : Bool}
    (hinv : SeqInv evs st) (hcur : st.nextStage = cur)
    (hd : drainIter cur st = some (st1, cont)) :
    SeqInv evs st1 ∧ (cont = true → st1.nextStage = cur) := by
  unfold drainIter at hd
  cases hb : dget st.buffer cur with
  | none => rw [hb] at hd; exact absurd hd (by simp)
  | some inner =>
  rw [hb] at hd
  simp only at hd
  cases he : dget inner ((dget st.nextSeg cur).getD 0) with
  | none => rw [he] at hd; exact absurd hd (by simp)
  | some e =>
  rw [he] at hd
  simp only at hd
  set k := (dget st.nextSeg cur).getD 0 with hk
  have hfr : playFrontier st = (cur, k) := by
    simp [playFrontier, hcur, hk]
  have hreport : SeqEv.report cur k e ∈ evs :=
    hinv.srcB (cur, inner) (dget_mem _ _ _ hb) (k, e) (dget_mem _ _ _ he)
  set stc : SeqState :=
    { buffer := aset st.buffer cur (aerase inner k)
      nextSeg := aset st.nextSeg cur (k + 1)
      nextStage := st.nextStage
      segCount := st.segCount
      textIndex := st.textIndex + 1
      queue := st.queue ++ [{ stage := cur, seg := k, entry := e, idx := st.textIndex + 1 }] }
    with hstc
  have hpairs : emittedPairs stc = emittedPairs st ++ [(cur, k)] := by
    simp [emittedPairs, hstc]
  have hsorted : List.Pairwise lexLt (emittedPairs stc) := by
    rw [hpairs]
    refine List.pairwise_append.mpr ⟨hinv.sorted, List.pairwise_singleton _ _, ?_⟩
    intro a ha b hb2
    rcases List.mem_singleton.mp hb2 with rfl
    exact hfr ▸ hinv.below a ha
  have hsrcQ : ∀ em ∈ stc.queue, SeqEv.report em.stage em.seg em.entry ∈ evs := by
    intro em hm
    rcases List.mem_append.mp hm with hm | hm
    · exact hinv.srcQ em hm
    · rcases List.mem_singleton.mp hm with rfl
      exact hreport
  have hsrcB : ∀ p ∈ stc.buffer, ∀ q ∈ p.2, SeqEv.report p.1 q.1 q.2 ∈ evs := by
    intro p hp q hq
    rcases mem_aset _ _ _ _ hp with rfl | hp2
    · exact hinv.srcB (cur, inner) (dget_mem _ _ _ hb) q (mem_aerase _ _ _ hq)
    · exact hinv.srcB p hp2 q hq
  have hcont : SeqInv evs stc := by
    refine ⟨hsorted, ?_, ?_, hsrcQ, hsrcB⟩
    · intro p hp
      have hfr1 : playFrontier stc = (cur, k + 1) := by
        simp [playFrontier, hstc, hcur, dget_aset_self]
      rw [hfr1]
      rw [hpairs] at hp
      rcases List.mem_append.mp hp with hp | hp
      · exact lexLt_trans_succ (hfr ▸ hinv.below p hp)
      · rcases List.mem_singleton.mp hp with rfl
        exact Or.inr ⟨rfl, Nat.lt_succ_self k⟩
    · intro s hs
      have hne : s ≠ cur := by
        simp only [hstc] at hs
        omega
      simp only [hstc] at hs ⊢
      rw [dget_aset_ne _ _ _ _ hne]
      exact hinv.hiZero s (by omega)
  cases hc : dget st.segCount cur with
  | none =>
    rw [hc] at hd
    simp only [Option.some.injEq, Prod.mk.injEq] at hd
    rcases hd with ⟨hd1, hd2⟩
    subst hd1; subst hd2
    exact ⟨hcont, fun _ => hcur⟩
  | some c =>
    rw [hc] at hd
    simp only at hd
    by_cases hcc : c ≤ k + 1
    · rw [if_pos hcc] at hd
      simp only [Option.some.injEq, Prod.mk.injEq] at hd
      rcases hd with ⟨hd1, hd2⟩
      subst hd1
      refine ⟨?_, by simp [← hd2]⟩
      refine ⟨hcont.sorted, ?_, ?_, hcont.srcQ, hcont.srcB⟩
      · intro p hp
        have hfr2 : playFrontier { stc with nextStage := cur + 1 } = (cur + 1, 0) := by
          have h0 : (dget stc.nextSeg (cur + 1)).getD 0 = 0 := by
            simp only [hstc]
            rw [dget_aset_ne _ _ _ _ (by omega)]
            exact hinv.hiZero (cur + 1) (by omega)
          simp [playFrontier, h0]
        rw [hfr2]
        have := hcont.below p hp
        have hfr1 : playFrontier stc = (cur, k + 1) := by
          simp [playFrontier, hstc, hcur, dget_aset_self]
        rw [hfr1] at this
        exact lexLt_stage_lt this
      · intro s hs
        simp only at hs
        simp only [hstc] at hs ⊢
        rw [dget_aset_ne _ _ _ _ (by omega)]
        exact hinv.hiZero s (by omega)
    · rw [if_neg hcc] at hd
      simp only [Option.some.injEq, Prod.mk.injEq] at hd
      rcases hd with ⟨hd1, hd2⟩
      subst hd1; subst hd2
      exact ⟨hcont, fun _ => hcur⟩

theorem drainLoop_inv {evs : List SeqEv} :
    ∀ (fuel cur : Nat) (st : SeqState), SeqInv evs st → st.nextStage = cur →
      SeqInv evs (drainLoop fuel cur st)
  | 0, _, _, hinv, _ => hinv
  | fuel + 1, cur, st, hinv, hcur => by
    unfold drainLoop
    cases hd : drainIter cur st with
    | none => exact hinv
    | some p =>
      rcases p with ⟨st1, cont⟩
      rcases drainIter_inv hinv hcur hd with ⟨hinv1, hcont⟩
      cases cont with
      | true =>
        simp only
        exact drainLoop_inv fuel cur st1 hinv1 (hcont rfl)
      | false => exact hinv1

theorem bufferReport_inv {evs : List SeqEv} {st : SeqState} {s i : Nat} {e : Entry}
    (hinv : SeqInv evs st) (hev : SeqEv.report s i e ∈ evs) :
    SeqInv evs (bufferReport st s i e) := by
  unfold bufferReport
  set buf0 := if (dget st.buffer s).isSome then st.buffer else aset st.buffer s [] with hbuf0
  set ns0 := if (dget st.nextSeg s).isSome then st.nextSeg else aset st.nextSeg s 0 with hns0
  have hns_getD : ∀ j, (dget ns0 j).getD 0 = (dget st.nextSeg j).getD 0 := by
    intro j
    rw [hns0]
    cases hj : (dget st.nextSeg s).isSome
    · simp only [Bool.false_eq_true, if_false]
      by_cases hjs : j = s
      · subst hjs
        rw [dget_aset_self]
        cases hjv : dget st.nextSeg j
        · simp
        · rw [hjv] at hj; simp at hj
      · rw [dget_aset_ne _ _ _ _ hjs]
    · simp
  have hbuf_src : ∀ p ∈ buf0, ∀ q ∈ p.2, SeqEv.report p.1 q.1 q.2 ∈ evs := by
    intro p hp q hq
    rw [hbuf0] at hp
    cases hj : (dget st.buffer s).isSome
    · rw [hj] at hp
      simp only [Bool.false_eq_true, if_false] at hp
      rcases mem_aset _ _ _ _ hp with rfl | hp2
      · exact absurd hq (by simp)
      · exact hinv.srcB p hp2 q hq
    · rw [hj] at hp
      simp only [if_true] at hp
      exact hinv.srcB p hp q hq
  refine ⟨hinv.sorted, ?_, ?_, hinv.srcQ, ?_⟩
  · intro p hp
    have : lexLt p (playFrontier st) := hinv.below p hp
    simpa [playFrontier, hns_getD] using this
  · intro s2 hs2
    simp only at hs2 ⊢
    rw [hns_getD]
    exact hinv.hiZero s2 hs2
  · intro p hp q hq
    simp only at hp
    rcases mem_aset _ _ _ _ hp with rfl | hp2
    · simp only at hq
      rcases mem_aset _ _ _ _ hq with rfl | hq2
      · exact hev
      · cases hin : dget buf0 s with
        | none => rw [hin] at hq2; exact absurd hq2 (by simp)
        | some inn =>
          rw [hin] at hq2
          simp only [Option.getD_some] at hq2
          exact hbuf_src (s, inn) (dget_mem _ _ _ hin) q hq2
    · exact hbuf_src p hp2 q hq

theorem stepReport_inv {evs : List SeqEv} {st : SeqState} (s i : Nat) (e : Entry)
    (hinv : SeqInv evs st) :
    SeqInv (evs ++ [SeqEv.report s i e]) (stepReport st s i e) := by
  have hinv2 : SeqInv (evs ++ [SeqEv.report s i e]) st :=
    hinv.mono (fun ev hev => List.mem_append_left _ hev)
  have hb : SeqInv (evs ++ [SeqEv.report s i e]) (bufferReport st s i e) :=
    bufferReport_inv hinv2 (List.mem_append_right _ (List.mem_singleton_self _))
  unfold stepReport
  exact drainLoop_inv _ _ _ hb rfl

theorem stepSetCount_inv {evs : List SeqEv} {st : SeqState} (s c : Nat)
    (hinv : SeqInv evs st) :
    SeqInv (evs ++ [SeqEv.setCount s c]) (stepSetCount st s c) := by
  have hinv2 : SeqInv (evs ++ [SeqEv.setCount s c]) st :=
    hinv.mono (fun ev hev => List.mem_append_left _ hev)
  exact ⟨hinv2.sorted, hinv2.below, hinv2.hiZero, hinv2.srcQ, hinv2.srcB⟩

theorem foldl_seqStep_inv :
    ∀ (tr evs0 : List SeqEv) (st : SeqState), SeqInv evs0 st →
      SeqInv (evs0 ++ tr) (tr.foldl seqStep st)
  | [], evs0, st, hinv => by simpa using hinv
  | ev :: tr, evs0, st, hinv => by
    have hstep : SeqInv (evs0 ++ [ev]) (seqStep st ev) := by
      cases ev with
      | setCount s c => exact stepSetCount_inv s c hinv
      | report s i e => exact stepReport_inv s i e hinv
    have := foldl_seqStep_inv tr (evs0 ++ [ev]) (seqStep st ev) hstep
    simpa [List.append_assoc] using this

theorem runSeq_inv (tr : List SeqEv) : SeqInv tr (runSeq tr) := by
  have := foldl_seqStep_inv tr [] seqInit seqInit_inv
  simpa [runSeq] using this

def seqTraceC1 : List SeqEv :=
  [.setCount 0 1, .setCount 1 1,
   .report 1 0 { audio := "later.wav", text := "later" },
   .report 0 0 { audio := "early.wav", text := "early" }]

/-- Claim C1, counterexample. With counts 1 announced for stages 0 and 1 and
the two segments reported out of stage order, the finished run has emitted
only (0,0): the stage-1 segment stays buffered although every report and
count announcement has arrived, so the queue is not the full reported set
in lexicographic order (which would be [(0,0), (1,0)]). -/
theorem c1_counterexample :
    emittedPairs (runSeq seqTraceC1) ≠ [(0, 0), (1, 0)] ∧
      emittedPairs (runSeq seqTraceC1) = [(0, 0)] ∧
      reportedPairs seqTraceC1 = [(1, 0), (0, 0)] := by
  refine ⟨by decide, by decide, by decide⟩

/-- Claim C1, amended: for every interleaving of reportSegment and
reportSegmentCount calls, the pairs emitted to tts_queue are strictly
increasing in lexicographic (stageIndex, segmentIndex) order, and every
emitted entry is one of the reported segments; full delivery of all
reported segments, however, is not guaranteed (see C2 and C3). -/
theorem c1_amended_order_sound (tr : List SeqEv) :
    List.Pairwise lexLt (emittedPairs (runSeq tr)) ∧
      ∀ em ∈ (runSeq tr).queue, SeqEv.report em.stage em.seg em.entry ∈ tr :=
  ⟨(runSeq_inv tr).sorted, (runSeq_inv tr).srcQ⟩

def seqTraceC2 : List SeqEv :=
  [.setCount 0 0, .setCount 1 1,
   .report 1 0 { audio := "s1.wav", text := "s1" }]

/-- Claim C2, code behaviour at the failing input. Stage 0 is announced
with count 0 and never receives a segment; stage 1 is announced with count
1 and its only segment is reported. set_stage_seg_count performs no drain
and the drain loop guard requires a buffered entry of the active stage
before the count is ever consulted, so the active stage cursor never
advances past the empty stage 0 and nothing is emitted. -/
theorem c2_zero_count_stalls :
    (runSeq seqTraceC2).queue = [] ∧
      (runSeq seqTraceC2).nextStage = 0 ∧
      dget (runSeq seqTraceC2).segCount 0 = some 0 ∧
      dget ((dget (runSeq seqTraceC2).buffer 1).getD []) 0 =
        some { audio := "s1.wav", text := "s1" } := by
  refine ⟨by decide, by decide, by decide, by decide⟩

def seqTraceC3 : List SeqEv :=
  [.setCount 1 1,
   .report 1 0 { audio := "b1.wav", text := "u1" },
   .setCount 0 1,
   .report 0 0 { audio := "b0.wav", text := "u0" }]

/-- Claim C3, code behaviour at the failing input. The final call delivers
the last needed segment of stage 0 and retires that stage; at that moment
the new active stage 1 already has its count recorded and its single
segment buffered, yet the call's drain exits through the break after
advancing next_play_stage_index, so the stage-1 segment is not emitted in
that call (nor in any later one, since no further call occurs). -/
theorem c3_drain_stops_at_stage_boundary :
    emittedPairs (runSeq seqTraceC3) = [(0, 0)] ∧
      (runSeq seqTraceC3).nextStage = 1 ∧
      dget (runSeq seqTraceC3).segCount 1 = some 1 ∧
      dget ((dget (runSeq seqTraceC3).buffer 1).getD []) 0 =
        some { audio := "b1.wav", text := "u1" } := by
  refine ⟨by decide, by decide, by decide, by decide⟩

/-! ## AttrDict: Python values after the recursive conversion.

prompt_template.AttrDict subclasses dict, sets self as its own attribute
dict, recursively converts nested dicts and lists at construction, and
resolves a missing attribute through a fallback that returns None instead
of raising. PyVal distinguishes a plain dict (attribute access for a key
raises AttributeError) from an AttrDict. -/

inductive PyVal where
  | pynone : PyVal
  | pybool : Bool → PyVal
  | pynum : String → PyVal
  | pystr : String → PyVal
  | pylist : List PyVal → PyVal
  | pydict : List (String × PyVal) → PyVal
  | pyattr : List (String × PyVal) → PyVal

mutual

/-- AttrDict.__init__ composed with the JSON-to-Python reading: every JSON
object becomes an AttrDict and every list is rebuilt by _process_list. -/
def convJ : JVal → PyVal
  | .jnull => .pynone
  | .jbool b => .pybool b
  | .jnum s => .pynum s
  | .jstr s => .pystr s
  | .jarr l => .pylist (convItems l)
  | .jobj fs => .pyattr (convFields fs)

def convItems : List JVal → List PyVal
  | [] => []
  | v :: l => convJ v :: convItems l

def convFields : List (String × JVal) → List (String × PyVal)
  | [] => []
  | (k, v) :: fs => (k, convJ v) :: convFields fs

end

/-- Attribute access on a Python value. On an AttrDict the instance lookup
finds a stored key, and otherwise __getattr__ answers self.get(name), i.e.
None; on every other value a missing attribute raises AttributeError.
Methods inherited from dict (keys, items, ...) are part of the Python
object protocol, not of this data model. -/
def getattrPy : PyVal → String → Except String PyVal
  | .pyattr fs, name => .ok ((dget fs name).getD .pynone)
  | _, _ => .error "AttributeError"

mutual

/-- No plain dict anywhere inside the value, so that attribute access is
total at every nesting depth. -/
def attrSafe : PyVal → Bool
  | .pynone => true
  | .pybool _ => true
  | .pynum _ => true
  | .pystr _ => true
  | .pylist l => attrSafeItems l
  | .pydict _ => false
  | .pyattr fs => attrSafeFields fs

def attrSafeItems : List PyVal → Bool
  | [] => true
  | v :: l => attrSafe v && attrSafeItems l

def attrSafeFields : List (String × PyVal) → Bool
  | [] => true
  | (_, v) :: fs => attrSafe v && attrSafeFields fs

end

mutual

theorem attrSafe_convJ : ∀ j : JVal, attrSafe (convJ j) = true
  | .jnull => rfl
  | .jbool _ => rfl
  | .jnum _ => rfl
  | .jstr _ => rfl
  | .jarr l => by simpa [convJ, attrSafe] using attrSafe_convItems l
  | .jobj fs => by simpa [convJ, attrSafe] using attrSafe_convFields fs

theorem attrSafe_convItems : ∀ l : List JVal, attrSafeItems (convItems l) = true
  | [] => rfl
  | v :: l => by
    simp [convItems, attrSafeItems, attrSafe_convJ v, attrSafe_convItems l]

theorem attrSafe_convFields : ∀ fs : List (String × JVal),
    attrSafeFields (convFields fs) = true
  | [] => rfl
  | (k, v) :: fs => by
    simp [convFields, attrSafeFields, attrSafe_convJ v, attrSafe_convFields fs]

end

/-- Claim C10: the recursive conversion applied to any decoded JSON value
leaves no plain dict at any nesting depth, attribute access on any AttrDict
in it never raises, and an attribute name that is not a stored key reads as
None. -/
theorem c10_attrdict_safe :
    (∀ j : JVal, attrSafe (convJ j) = true) ∧
      (∀ (fs : List (String × PyVal)) (name : String),
        (getattrPy (.pyattr fs) name).isOk = true) ∧
      (∀ (fs : List (String × PyVal)) (name : String),
        dget fs name = none → getattrPy (.pyattr fs) name = .ok .pynone) := by
  refine ⟨attrSafe_convJ, ?_, ?_⟩
  · intro fs name
    simp [getattrPy, Except.isOk, Except.toBool]
  · intro fs name h
    simp [getattrPy, h]

/-- Claim C10, witness: a nested JSON value converts to nested AttrDicts,
and a missing name reads as None. -/
theorem c10_attrdict_safe_witness :
    attrSafe (convJ (.jobj [("a", .jarr [.jobj [("b", .jnum "1")]])])) = true ∧
      getattrPy (.pyattr [("a", .pynum "1")]) "missing" = .ok .pynone :=
  ⟨c10_attrdict_safe.1 _, c10_attrdict_safe.2.2 _ _ rfl⟩

/-! ## PromptTemplate.parse: locating and decoding JSON in model output.

parse first tries json.loads on the whole text; then the slice from the
first opening brace to the last closing brace; then the non-overlapping
matches of the regex r-brace(?:[^braces]|(?:brace(?:[^braces]|(?:brace
[^braces]*brace))*brace))*brace-, which match exactly the brace-balanced
blocks of nesting depth at most three, tried longest first (max takes the
first maximum, sorted with reverse=True is stable, and the loop skips the
already-tried maximum, so the overall attempt order is the stable
descending sort by length). Pydantic validation of the schema model is an
external collaborator and is a function parameter. -/

/-- Scans the brace block starting at the head of the input: returns the
block including both braces, its maximum brace-nesting depth, and the rest
of the input. Braces inside JSON strings count like any other brace, as
they do for the regex in the source. -/
def scanBlockAux : List Char → Nat → Nat → List Char → Option (List Char × Nat × List Char)
  | [], _, _, _ => none
  | c :: cs, depth, maxd, acc =>
    if c = '\x7b' then scanBlockAux cs (depth + 1) (max maxd (depth + 1)) (c :: acc)
    else if c = '\x7d' then
      if depth = 1 then some ((c :: acc).reverse, maxd, cs)
      else if depth = 0 then none
      else scanBlockAux cs (depth - 1) maxd (c :: acc)
    else scanBlockAux cs depth maxd (c :: acc)

def scanBlock (cs : List Char) : Option (List Char × Nat × List Char) :=
  scanBlockAux cs 0 0 []

/-- The non-overlapping matches of the nested-JSON regex: scanning left to
right, at an opening brace whose balanced block has depth at most 3 the
block matches and scanning resumes after it; at any other position (deeper
block, or no matching close) the pattern fails there and scanning moves one
character ahead. Fuel is the input length; every step consumes at least one
character. -/
def pyMatchesAux : Nat → List Char → List (List Char)
  | 0, _ => []
  | _, [] => []
  | fuel + 1, c :: cs =>
    if c = '\x7b' then
      match scanBlock (c :: cs) with
      | some (block, d, rest) =>
        if d ≤ 3 then block :: pyMatchesAux fuel rest
        else pyMatchesAux fuel cs
      | none => pyMatchesAux fuel cs
    else pyMatchesAux fuel cs

def pyMatches (cs : List Char) : List (List Char) :=
  pyMatchesAux cs.length cs

/-- Modelled from the spec: all balanced brace-delimited candidate
substrings of the text, nested candidates included and with no depth bound.
Stated only to compare the specification's candidate-selection wording with
the implementation. -/
def specBalancedAux : Nat → List Char → List (List Char)
  | 0, _ => []
  | _, [] => []
  | fuel + 1, c :: cs =>
    if c = '\x7b' then
      match scanBlock (c :: cs) with
      | some (block, _, _) => block :: specBalancedAux fuel cs
      | none => specBalancedAux fuel cs
    else specBalancedAux fuel cs

def specBalancedCandidates (cs : List Char) : List (List Char) :=
  specBalancedAux cs.length cs

/-- Python max with a length key: the first element of maximal length. -/
def pyMaxByLen (l : List (List Char)) : Option (List Char) :=
  match l with
  | [] => none
  | x :: r => some (r.foldl (fun acc y => if y.length > acc.length then y else acc) x)

def specLongestCandidate (cs : List Char) : Option (List Char) :=
  pyMaxByLen (specBalancedCandidates cs)

/-- Stable insertion keeping lengths descending: an element settles after
every earlier element of at least its length. -/
def insertDescLen (x : List Char) : List (List Char) → List (List Char)
  | [] => [x]
  | y :: ys => if x.length ≤ y.length then y :: insertDescLen x ys else x :: y :: ys

def sortDescLen : List (List Char) → List (List Char)
  | [] => []
  | x :: l => insertDescLen x (sortDescLen l)

def firstDecodable : List (List Char) → Option JVal
  | [] => none
  | m :: ms =>
    match jdecL m with
    | some d => some d
    | none => firstDecodable ms

def firstIdxOf (c : Char) : List Char → Option Nat
  | [] => none
  | x :: xs => if x = c then some 0 else (firstIdxOf c xs).map (· + 1)

def lastIdxOf (c : Char) (cs : List Char) : Option Nat :=
  (firstIdxOf c cs.reverse).map (fun i => cs.length - 1 - i)

def sliceIncl (cs : List Char) (i j : Nat) : List Char :=
  (cs.drop i).take (j + 1 - i)

/-- The JSON-locating phase of PromptTemplate.parse: whole text, then the
text.find to text.rfind slice, then the regex matches in stable descending
length order; the error cases are the raised ValueError messages. -/
def locateJson (text : List Char) : Except String JVal :=
  match jdecL text with
  | some d => .ok d
  | none =>
    match firstIdxOf '\x7b' text, lastIdxOf '\x7d' text with
    | some si, some ei =>
      if si < ei then
        match jdecL (sliceIncl text si ei) with
        | some d => .ok d
        | none =>
          let ms := pyMatches text
          if ms.isEmpty then .error "no JSON object found"
          else
            match firstDecodable (sortDescLen ms) with
            | some d => .ok d
            | none => .error "every JSON candidate failed to decode"
      else .error "no JSON object start and end markers in text"
    | _, _ => .error "no JSON object start and end markers in text"

inductive ParseOut (μ : Type) where
  | modelInst : μ → ParseOut μ
  | attrDict : JVal → ParseOut μ

/-- The pydantic call output_schema_model(**data): keyword expansion
requires a mapping, so a non-object value is a validation failure. -/
def validationOk {μ : Type} (f : JVal → Option μ) (d : JVal) : Option μ :=
  match d with
  | .jobj _ => f d
  | _ => none

/-- AttrDict(data): the compatibility fallback succeeds on an object and
raises TypeError (propagated as ValueError) on anything else. -/
def attrFallback (μ : Type) (d : JVal) : Except String (ParseOut μ) :=
  match d with
  | .jobj _ => .ok (.attrDict d)
  | _ => .error "AttrDict of a non-dict raises TypeError"

/-- PromptTemplate.parse(text, validate_required): locate JSON, then
validate against the schema model when one exists; on validation failure
raise when validate_required is set, otherwise fall back to AttrDict. -/
def pyParse {μ : Type} (validator : Option (JVal → Option μ)) (vr : Bool)
    (text : List Char) : Except String (ParseOut μ) :=
  match locateJson text with
  | .error e => .error e
  | .ok d =>
    match validator with
    | some f =>
      match validationOk f d with
      | some m => .ok (.modelInst m)
      | none => if vr then .error "validation failed: required field missing" else attrFallback μ d
    | none => attrFallback μ d

def startsWithSub : List Char → List Char → Bool
  | _, [] => true
  | [], _ :: _ => false
  | c :: cs, d :: ds => c = d && startsWithSub cs ds

def containsSub : List Char → List Char → Bool
  | [], sub => sub.isEmpty
  | c :: cs, sub => startsWithSub (c :: cs) sub || containsSub cs sub

theorem dget_convFields : ∀ (fs : List (String × JVal)) (k : String),
    dget (convFields fs) k = (dget fs k).map convJ
  | [], _ => rfl
  | (k0, v0) :: fs, k => by
    by_cases hk : k = k0
    · subst hk; simp [convFields, dget]
    · simp [convFields, dget, hk, dget_convFields fs k]

def textC4 : List Char := "\x7bx \x7b\"a\":1\x7d \x7d".toList

/-- Claim C4, counterexample. On the text consisting of a single balanced
depth-2 block whose outer layer is not valid JSON, the whole-text decode
and the brace-slice decode fail, the regex matches exactly the whole block
(resuming after it, so the nested object is never a candidate of its own),
and parse raises, although the syntactically valid JSON object brace
"a":1 brace is present in the text. -/
theorem c4_counterexample :
    (pyParse (μ := Unit) none false textC4).isOk = false ∧
      jdecL (String.toList "\x7b\"a\":1\x7d") = some (.jobj [("a", .jnum "1")]) ∧
      containsSub textC4 (String.toList "\x7b\"a\":1\x7d") = true :=
  ⟨rfl, rfl, rfl⟩

/-- Claim C4, amended: parse with a schema model raises exactly when the
locating phase (whole text, first-to-last-brace slice, regex candidates)
fails to produce a decoded value, or when validate_required is set and the
schema validation fails; when validate_required is false and the located
value is a JSON object, parse never raises, and in the AttrDict fallback a
missing field name reads as None. -/
theorem c4_amended {μ : Type} (f : JVal → Option μ) (text : List Char) :
    ((pyParse (some f) true text).isOk = false ↔
        ((locateJson text).isOk = false ∨
          ∃ d, locateJson text = .ok d ∧ validationOk f d = none)) ∧
      (∀ fs, locateJson text = .ok (.jobj fs) →
        (pyParse (some f) false text).isOk = true) ∧
      (∀ fs name, pyParse (some f) false text = .ok (.attrDict (.jobj fs)) →
        dget fs name = none → getattrPy (convJ (.jobj fs)) name = .ok .pynone) := by
  refine ⟨?_, ?_, ?_⟩
  · cases h : locateJson text with
    | error e =>
      simp [pyParse, h, Except.isOk, Except.toBool]
    | ok d =>
      cases hv : validationOk f d with
      | none =>
        simp only [pyParse, h, hv, if_true]
        constructor
        · intro _
          exact Or.inr ⟨d, rfl, hv⟩
        · intro _
          simp [Except.isOk, Except.toBool]
      | some m =>
        simp only [pyParse, h, hv]
        constructor
        · intro hc
          simp [Except.isOk, Except.toBool] at hc
        · intro hc
          rcases hc with hc | ⟨d2, hd2, hv2⟩
          · simp [Except.isOk, Except.toBool] at hc
          · simp only [Except.ok.injEq] at hd2
            subst hd2
            rw [hv] at hv2
            exact absurd hv2 (by simp)
  · intro fs h
    cases hv : validationOk f (JVal.jobj fs) with
    | none => simp [pyParse, h, hv, attrFallback, Except.isOk, Except.toBool]
    | some m => simp [pyParse, h, hv, Except.isOk, Except.toBool]
  · intro fs name _ hmiss
    simp [convJ, getattrPy, dget_convFields, hmiss]

def textW4 : List Char := "x \x7b\"a\":1\x7d".toList

/-- Claim C4, witness: at a concrete text whose brace slice decodes to an
object, a validator that always fails makes parse raise exactly when
validate_required is set. -/
theorem c4_amended_witness :
    (pyParse (μ := Unit) (some (fun _ => none)) true textW4).isOk = false ∧
      (pyParse (μ := Unit) (some (fun _ => none)) false textW4).isOk = true := by
  have h := c4_amended (μ := Unit) (fun _ => none) textW4
  exact ⟨h.1.mpr (Or.inr ⟨.jobj [("a", .jnum "1")], rfl, rfl⟩), h.2.1 [("a", .jnum "1")] rfl⟩

theorem mem_insertDescLen {a x : List Char} :
    ∀ l : List (List Char), a ∈ insertDescLen x l ↔ a = x ∨ a ∈ l
  | [] => by simp [insertDescLen]
  | y :: ys => by
    by_cases hxy : x.length ≤ y.length
    · simp only [insertDescLen, if_pos hxy, List.mem_cons]
      rw [mem_insertDescLen ys]
      tauto
    · simp [insertDescLen, if_neg hxy]

theorem mem_sortDescLen {a : List Char} :
    ∀ l : List (List Char), a ∈ sortDescLen l ↔ a ∈ l
  | [] => by simp [sortDescLen]
  | x :: l => by
    simp only [sortDescLen, List.mem_cons]
    rw [mem_insertDescLen, mem_sortDescLen l]

def lenGe (a b : List Char) : Prop := b.length ≤ a.length

theorem pairwise_insertDescLen {x : List Char} :
    ∀ {l : List (List Char)}, List.Pairwise lenGe l →
      List.Pairwise lenGe (insertDescLen x l)
  | [], _ => by simp [insertDescLen, lenGe]
  | y :: ys, h => by
    rcases List.pairwise_cons.mp h with ⟨hy, hys⟩
    by_cases hxy : x.length ≤ y.length
    · simp only [insertDescLen, if_pos hxy]
      refine List.pairwise_cons.mpr ⟨?_, pairwise_insertDescLen hys⟩
      intro b hb
      rcases (mem_insertDescLen ys).mp hb with rfl | hb2
      · exact hxy
      · exact hy b hb2
    · simp only [insertDescLen, if_neg hxy]
      refine List.pairwise_cons.mpr ⟨?_, h⟩
      intro b hb
      rcases List.mem_cons.mp hb with rfl | hb2
      · exact Nat.le_of_lt (Nat.lt_of_not_le hxy)
      · exact (hy b hb2).trans (Nat.le_of_lt (Nat.lt_of_not_le hxy))

theorem pairwise_sortDescLen :
    ∀ l : List (List Char), List.Pairwise lenGe (sortDescLen l)
  | [] => by simp [sortDescLen]
  | x :: l => pairwise_insertDescLen (pairwise_sortDescLen l)

theorem firstDecodable_none_iff :
    ∀ l : List (List Char), firstDecodable l = none ↔ ∀ m ∈ l, jdecL m = none
  | [] => by simp [firstDecodable]
  | m :: ms => by
    cases hm : jdecL m with
    | some d =>
      simp only [firstDecodable, hm]
      constructor
      · intro h; exact absurd h (by simp)
      · intro h
        have := h m (List.mem_cons_self m ms)
        rw [hm] at this
        exact absurd this (by simp)
    | none =>
      simp only [firstDecodable, hm]
      rw [firstDecodable_none_iff ms]
      constructor
      · intro h m2 hm2
        rcases List.mem_cons.mp hm2 with rfl | hm2
        · exact hm
        · exact h m2 hm2
      · intro h m2 hm2
        exact h m2 (List.mem_cons_of_mem _ hm2)

theorem firstDecodable_longest {d : JVal} :
    ∀ l : List (List Char), List.Pairwise lenGe l → firstDecodable l = some d →
      ∃ m ∈ l, jdecL m = some d ∧
        ∀ m2 ∈ l, (jdecL m2).isSome = true → m2.length ≤ m.length
  | [], _, h => by simp [firstDecodable] at h
  | m :: ms, hp, h => by
    rcases List.pairwise_cons.mp hp with ⟨hm, hms⟩
    cases hdm : jdecL m with
    | some d2 =>
      simp only [firstDecodable, hdm, Option.some.injEq] at h
      subst h
      refine ⟨m, List.mem_cons_self m ms, hdm, ?_⟩
      intro m2 hm2 _
      rcases List.mem_cons.mp hm2 with rfl | hm2
      · exact Nat.le_refl _
      · exact hm m2 hm2
    | none =>
      simp only [firstDecodable, hdm] at h
      rcases firstDecodable_longest ms hms h with ⟨m1, hm1, hd1, hlong⟩
      refine ⟨m1, List.mem_cons_of_mem _ hm1, hd1, ?_⟩
      intro m2 hm2 hdec
      rcases List.mem_cons.mp hm2 with rfl | hm2
      · rw [hdm] at hdec
        exact absurd hdec (by simp)
      · exact hlong m2 hm2 hdec

def textC5 : List Char :=
  "\x7bx\x7d \x7b\"a\":\x7b\"b\":\x7b\"c\":\x7b\"d\":1\x7d\x7d\x7d\x7d \x7by\x7d".toList

/-- Claim C5, counterexample. The longest balanced candidate of the text is
the depth-4 object keyed "a", and it decodes; but the regex matches only
blocks of depth at most 3 and finditer never revisits the inside of a
failed position beyond one character at a time, so parse decodes and
returns the nested depth-3 object keyed "b" instead of attempting the
longest balanced candidate first. -/
theorem c5_counterexample :
    locateJson textC5 =
        .ok (.jobj [("b", .jobj [("c", .jobj [("d", .jnum "1")])])]) ∧
      specLongestCandidate textC5 =
        some (String.toList "\x7b\"a\":\x7b\"b\":\x7b\"c\":\x7b\"d\":1\x7d\x7d\x7d\x7d") ∧
      jdecL (String.toList "\x7b\"a\":\x7b\"b\":\x7b\"c\":\x7b\"d\":1\x7d\x7d\x7d\x7d") =
        some (.jobj [("a", .jobj [("b", .jobj [("c", .jobj [("d", .jnum "1")])])])]) ∧
      (JVal.jobj [("a", .jobj [("b", .jobj [("c", .jobj [("d", .jnum "1")])])])] ≠
        JVal.jobj [("b", .jobj [("c", .jobj [("d", .jnum "1")])])]) := by
  refine ⟨rfl, rfl, rfl, ?_⟩
  intro h
  simp at h

/-- Claim C5, amended: when the whole-text decode and the brace-slice
decode both fail, parse attempts exactly the non-overlapping depth-at-most-
three regex matches, in stable descending length order: it raises if and
only if every match fails to decode, and on success it returns the decode
of a match of maximal length among the decodable matches. Balanced
candidates of depth greater than three, or nested inside another match, are
never attempted (see the counterexample). -/
theorem c5_amended (text : List Char) (si ei : Nat)
    (h1 : jdecL text = none)
    (h2 : firstIdxOf '\x7b' text = some si)
    (h3 : lastIdxOf '\x7d' text = some ei)
    (h4 : si < ei)
    (h5 : jdecL (sliceIncl text si ei) = none) :
    ((locateJson text).isOk = false ↔ ∀ m ∈ pyMatches text, jdecL m = none) ∧
      (∀ d, locateJson text = .ok d →
        ∃ m ∈ pyMatches text, jdecL m = some d ∧
          ∀ m2 ∈ pyMatches text, (jdecL m2).isSome = true → m2.length ≤ m.length) := by
  have hloc : locateJson text =
      (if (pyMatches text).isEmpty then Except.error "no JSON object found"
       else
         match firstDecodable (sortDescLen (pyMatches text)) with
         | some d => .ok d
         | none => .error "every JSON candidate failed to decode") := by
    simp [locateJson, h1, h2, h3, h4, h5]
  by_cases hemp : (pyMatches text).isEmpty
  · rw [if_pos hemp] at hloc
    have hnil : pyMatches text = [] := List.isEmpty_iff.mp hemp
    constructor
    · simp [hloc, hnil, Except.isOk, Except.toBool]
    · intro d hd
      rw [hloc] at hd
      exact absurd hd (by simp)
  · rw [if_neg hemp] at hloc
    cases hfd : firstDecodable (sortDescLen (pyMatches text)) with
    | none =>
      rw [hfd] at hloc
      constructor
      · have hall := (firstDecodable_none_iff _).mp hfd
        constructor
        · intro _ m hm
          exact hall m ((mem_sortDescLen _).mpr hm)
        · intro _
          simp [hloc, Except.isOk, Except.toBool]
      · intro d hd
        rw [hloc] at hd
        exact absurd hd (by simp)
    | some d0 =>
      rw [hfd] at hloc
      rcases firstDecodable_longest _ (pairwise_sortDescLen (pyMatches text)) hfd with
        ⟨m, hm, hdm, hbound⟩
      constructor
      · constructor
        · intro hc
          rw [hloc] at hc
          simp [Except.isOk, Except.toBool] at hc
        · intro hall
          have := hall m ((mem_sortDescLen _).mp hm)
          rw [hdm] at this
          exact absurd this (by simp)
      · intro d hd
        rw [hloc] at hd
        simp only [Except.ok.injEq] at hd
        subst hd
        refine ⟨m, (mem_sortDescLen _).mp hm, hdm, ?_⟩
        intro m2 hm2 hdec
        exact hbound m2 ((mem_sortDescLen _).mpr hm2) hdec

def textW5 : List Char := "x \x7b\"a\":1\x7d y \x7b\"bb\":2\x7d z".toList

/-- Claim C5, witness: on a text with two regex candidates, the longer one
decodes and is the returned value, and it is of maximal length among the
decodable candidates. -/
theorem c5_amended_witness :
    ∃ m ∈ pyMatches textW5, jdecL m = some (.jobj [("bb", .jnum "2")]) ∧
      ∀ m2 ∈ pyMatches textW5, (jdecL m2).isSome = true → m2.length ≤ m.length :=
  (c5_amended textW5 2 19 rfl rfl rfl (by decide) rfl).2 _ rfl

/-! ## Voice assignment.

storyRespProcessor._get_role_voice / _get_narrator_voice (session-state
versions with used_voices and sticky maps) and the streaming_processor
versions (no used_voices; its narrator helper keeps no state at all).
random.choice is modelled by an explicit pick index reduced modulo the pool
size; Python hash() and str() on opaque values are oracle parameters, used
only inside the opaque voice identifier strings. -/

def jnumZero (s : String) : Bool :=
  let m := s.toList.takeWhile (fun c => c ≠ 'e' ∧ c ≠ 'E')
  m.any Char.isDigit && m.all (fun c => !c.isDigit || c = '0')

/-- Python truthiness of a JSON-derived value. -/
def pyTruthy : JVal → Bool
  | .jnull => false
  | .jbool b => b
  | .jnum s => !jnumZero s
  | .jstr s => !s.isEmpty
  | .jarr l => !l.isEmpty
  | .jobj l => !l.isEmpty

structure PyRepr where
  pyHash : JVal → Int
  strRepr : JVal → String

/-- Python str() as used in f-string interpolation; containers defer to the
oracle. -/
def pyStr (o : PyRepr) : JVal → String
  | .jnull => "None"
  | .jbool b => if b then "True" else "False"
  | .jnum s => s
  | .jstr s => s
  | v => o.strRepr v

abbrev TtsCfg := List (String × JVal)

def jEqStr (v : JVal) (s : String) : Bool :=
  match v with
  | .jstr t => t = s
  | _ => false

/-- Python value[0] for the sequence kinds; indexing any other truthy value
would raise, which is unreachable for the configured voice pools. -/
def pyIndexZero : JVal → Option JVal
  | .jarr (x :: _) => some x
  | .jstr s =>
    match s.toList with
    | c :: _ => some (.jstr (String.mk [c]))
    | [] => none
  | _ => none

/-- _get_voice_unique_id: None exactly for a falsy config or a falsy type;
otherwise an identifier string derived from the config. -/
def voiceUniqueId (o : PyRepr) (cfg : TtsCfg) : Option String :=
  if cfg.isEmpty then none
  else
    match dget cfg "type" with
    | none => none
    | some ty =>
      if !pyTruthy ty then none
      else if jEqStr ty "edge" then
        match dget cfg "voice" with
        | some voi =>
          if pyTruthy voi then
            let processing := (dget cfg "processing").getD (.jobj [])
            if pyTruthy processing then
              some ("edge_" ++ pyStr o voi ++ "_" ++ toString (o.pyHash processing))
            else some ("edge_" ++ pyStr o voi)
          else some (pyStr o ty ++ "_" ++ toString (o.pyHash (.jobj cfg)))
        | none => some (pyStr o ty ++ "_" ++ toString (o.pyHash (.jobj cfg)))
      else if jEqStr ty "fishspeech" then
        let ra := (dget cfg "reference_audio").getD (.jarr [])
        let rt := (dget cfg "reference_text").getD (.jarr [])
        if pyTruthy ra && pyTruthy rt then
          match pyIndexZero ra, pyIndexZero rt with
          | some a, some b =>
            some ("fishspeech_" ++ pyStr o a ++ "_" ++ toString (o.pyHash b))
          | _, _ => none
        else some (pyStr o ty ++ "_" ++ toString (o.pyHash (.jobj cfg)))
      else some (pyStr o ty ++ "_" ++ toString (o.pyHash (.jobj cfg)))

theorem voiceUniqueId_guard {o : PyRepr} {cfg : TtsCfg} {vid : String}
    (h : voiceUniqueId o cfg = some vid) :
    cfg.isEmpty = false ∧ (dget cfg "type").isSome = true := by
  unfold voiceUniqueId at h
  by_cases he : cfg.isEmpty
  · rw [if_pos he] at h; exact absurd h (by simp)
  · refine ⟨by simpa using he, ?_⟩
    rw [if_neg he] at h
    cases ht : dget cfg "type" with
    | none => rw [ht] at h; exact absurd h (by simp)
    | some ty => simp

structure Voice where
  gender : Option String
  tts : TtsCfg

structure VoiceState where
  role_voice_mapping : List (String × TtsCfg)
  narrator_voice_config : Option TtsCfg
  used_voices : List String

def pyChoice {α : Type} (l : List α) (pick : Nat) : Option α :=
  l[pick % l.length]?

theorem pyChoice_mem {α : Type} {l : List α} {pick : Nat} {a : α}
    (h : pyChoice l pick = some a) : a ∈ l := by
  unfold pyChoice at h
  rcases List.getElem?_eq_some_iff.mp h with ⟨hlt, he⟩
  exact he ▸ List.getElem_mem hlt

theorem pyChoice_isSome {α : Type} {l : List α} (pick : Nat) (h : l ≠ []) :
    (pyChoice l pick).isSome = true := by
  unfold pyChoice
  have hlen : 0 < l.length := List.length_pos.mpr h
  have : pick % l.length < l.length := Nat.mod_lt _ hlen
  simp [List.getElem?_eq_getElem this]

def genderFilter (g : String) (characters : List Voice) : List Voice :=
  characters.filter (fun v => v.gender.getD "" = g)

/-- The empty-pool fallback step shared by the selection code: an empty
filtered pool is replaced by the unfiltered one. -/
def poolFallback (s0 fallback : List Voice) : List Voice :=
  if s0.isEmpty then fallback else s0

/-- The gender step of _get_role_voice: filter when a truthy gender is
given, then fall back to the full pool when the filter is empty. -/
def suitablePool (gender : Option String) (characters : List Voice) : List Voice :=
  poolFallback
    (match gender with
     | some g => if g.isEmpty then characters else genderFilter g characters
     | none => characters)
    characters

def unusedFilter (o : PyRepr) (used : List String) (suitable : List Voice) : List Voice :=
  suitable.filter (fun v =>
    match voiceUniqueId o v.tts with
    | some vid => !(used.contains vid)
    | none => false)

/-- The used-voice step: keep voices whose identifier exists and is
unclaimed; fall back to the whole suitable pool when none remains. -/
def availablePool (o : PyRepr) (used : List String) (suitable : List Voice) : List Voice :=
  poolFallback (unusedFilter o used suitable) suitable

/-- storyRespProcessor._get_role_voice. -/
def getRoleVoice (o : PyRepr) (characters : List Voice) (st : VoiceState)
    (role_name : String) (gender : Option String) (pick : Nat) :
    Option TtsCfg × VoiceState :=
  match dget st.role_voice_mapping role_name with
  | some cfg => (some cfg, st)
  | none =>
    if characters.isEmpty then (none, st)
    else
      let suitable := suitablePool gender characters
      let avail := availablePool o st.used_voices suitable
      match pyChoice avail pick with
      | none => (none, st)
      | some sel =>
        let cfg := sel.tts
        if !cfg.isEmpty && (dget cfg "type").isSome then
          let used2 :=
            match voiceUniqueId o cfg with
            | some vid => vid :: st.used_voices
            | none => st.used_voices
          (some cfg,
            { st with used_voices := used2,
                      role_voice_mapping := aset st.role_voice_mapping role_name cfg })
        else (none, st)

/-- The selection part of storyRespProcessor._get_narrator_voice, reached
when no truthy narrator config is cached. -/
def narratorMiss (o : PyRepr) (narrators : List Voice) (st : VoiceState) (pick : Nat) :
    Option TtsCfg × VoiceState :=
  if narrators.isEmpty then (none, st)
  else
    let avail := availablePool o st.used_voices narrators
    match pyChoice avail pick with
    | none => (none, st)
    | some sel =>
      let cfg := sel.tts
      if !cfg.isEmpty && (dget cfg "type").isSome then
        let used2 :=
          match voiceUniqueId o cfg with
          | some vid => vid :: st.used_voices
          | none => st.used_voices
        (some cfg, { st with used_voices := used2, narrator_voice_config := some cfg })
      else (none, st)

/-- storyRespProcessor._get_narrator_voice: the truthiness test on the
cached config sends a falsy cache through the selection path again. -/
def getNarratorVoice (o : PyRepr) (narrators : List Voice) (st : VoiceState) (pick : Nat) :
    Option TtsCfg × VoiceState :=
  match st.narrator_voice_config with
  | some c => if !c.isEmpty then (some c, st) else narratorMiss o narrators st pick
  | none => narratorMiss o narrators st pick

/-- streaming_processor._get_role_voice: same shape but with no used-voice
bookkeeping; state is only the sticky role map. -/
def spGetRoleVoice (characters : List Voice) (mapping : List (String × TtsCfg))
    (role_name : String) (gender : Option String) (pick : Nat) :
    Option TtsCfg × List (String × TtsCfg) :=
  match dget mapping role_name with
  | some cfg => (some cfg, mapping)
  | none =>
    if characters.isEmpty then (none, mapping)
    else
      let suitable := suitablePool gender characters
      match pyChoice suitable pick with
      | none => (none, mapping)
      | some sel =>
        let cfg := sel.tts
        if !cfg.isEmpty && (dget cfg "type").isSome then
          (some cfg, aset mapping role_name cfg)
        else (none, mapping)

/-- streaming_processor._get_narrator_voice: no cache and no session state;
every call draws afresh from the narrator pool. -/
def spGetNarratorVoice (narrators : List Voice) (pick : Nat) : Option TtsCfg :=
  if narrators.isEmpty then none
  else
    match pyChoice narrators pick with
    | none => none
    | some sel =>
      let cfg := sel.tts
      if !cfg.isEmpty && (dget cfg "type").isSome then some cfg else none

inductive VOp where
  | roleCall : String → Option String → Nat → VOp
  | narrCall : Nat → VOp

def vstep (o : PyRepr) (characters narrators : List Voice) (st : VoiceState) : VOp → VoiceState
  | .roleCall r g p => (getRoleVoice o characters st r g p).2
  | .narrCall p => (getNarratorVoice o narrators st p).2

def runVOps (o : PyRepr) (characters narrators : List Voice) (st : VoiceState)
    (ops : List VOp) : VoiceState :=
  ops.foldl (vstep o characters narrators) st

theorem getRoleVoice_map_mono {o : PyRepr} {characters : List Voice} {st : VoiceState}
    {r2 : String} {g : Option String} {p : Nat} {r : String} {c : TtsCfg}
    (h : dget st.role_voice_mapping r = some c) :
    dget ((getRoleVoice o characters st r2 g p).2).role_voice_mapping r = some c := by
  unfold getRoleVoice
  cases hmap : dget st.role_voice_mapping r2 with
  | some cfg => exact h
  | none =>
    by_cases hc : characters.isEmpty
    · simp only [hc, if_true]
      exact h
    · simp only [hc, if_false]
      cases hch : pyChoice (availablePool o st.used_voices (suitablePool g characters)) p with
      | none => exact h
      | some sel =>
        simp only
        by_cases hg : (!sel.tts.isEmpty && (dget sel.tts "type").isSome) = true
        · simp only [hg, if_true]
          have hne : r ≠ r2 := by
            intro he
            rw [he, hmap] at h
            exact absurd h (by simp)
          simpa [dget_aset_ne _ _ _ _ hne] using h
        · simp only [Bool.not_eq_true] at hg
          simp only [hg, Bool.false_eq_true, if_false]
          exact h

theorem narratorMiss_map_mono {o : PyRepr} {narrators : List Voice} {st : VoiceState}
    {p : Nat} {r : String} {c : TtsCfg}
    (h : dget st.role_voice_mapping r = some c) :
    dget ((narratorMiss o narrators st p).2).role_voice_mapping r = some c := by
  unfold narratorMiss
  by_cases hn : narrators.isEmpty
  · simp only [hn, if_true]; exact h
  · simp only [hn, if_false]
    cases hch : pyChoice (availablePool o st.used_voices narrators) p with
    | none => exact h
    | some sel =>
      simp only
      by_cases hg : (!sel.tts.isEmpty && (dget sel.tts "type").isSome) = true
      · simp only [hg, if_true]; exact h
      · simp only [Bool.not_eq_true] at hg
        simp only [hg, Bool.false_eq_true, if_false]; exact h

theorem vstep_map_mono {o : PyRepr} {characters narrators : List Voice} {st : VoiceState}
    {op : VOp} {r : String} {c : TtsCfg}
    (h : dget st.role_voice_mapping r = some c) :
    dget ((vstep o characters narrators st op).role_voice_mapping) r = some c := by
  cases op with
  | roleCall r2 g p => exact getRoleVoice_map_mono h
  | narrCall p =>
    unfold vstep getNarratorVoice
    cases hn : st.narrator_voice_config with
    | some cfg =>
      by_cases hne : cfg.isEmpty
      · simp only [hne, Bool.not_true, Bool.false_eq_true, if_false]
        exact narratorMiss_map_mono h
      · simp only [hne, Bool.not_false, if_true]
        exact h
    | none => exact narratorMiss_map_mono h

theorem vstep_narr_mono {o : PyRepr} {characters narrators : List Voice} {st : VoiceState}
    {op : VOp} {c : TtsCfg}
    (h : st.narrator_voice_config = some c) (hne : c.isEmpty = false) :
    (vstep o characters narrators st op).narrator_voice_config = some c := by
  cases op with
  | roleCall r2 g p =>
    show ((getRoleVoice o characters st r2 g p).2).narrator_voice_config = some c
    unfold getRoleVoice
    cases hmap : dget st.role_voice_mapping r2 with
    | some cfg => exact h
    | none =>
      by_cases hc : characters.isEmpty
      · simp only [hc, if_true]
        exact h
      · simp only [hc, if_false]
        cases hch : pyChoice (availablePool o st.used_voices (suitablePool g characters)) p with
        | none => exact h
        | some sel =>
          simp only
          by_cases hg : (!sel.tts.isEmpty && (dget sel.tts "type").isSome) = true
          · simp only [hg, if_true]
            exact h
          · simp only [Bool.not_eq_true] at hg
            simp only [hg, Bool.false_eq_true, if_false]
            exact h
  | narrCall p =>
    show ((getNarratorVoice o narrators st p).2).narrator_voice_config = some c
    unfold getNarratorVoice
    rw [h]
    simp [hne]
    exact h

theorem runVOps_map_mono {o : PyRepr} {characters narrators : List Voice} {r : String}
    {c : TtsCfg} :
    ∀ (ops : List VOp) (st : VoiceState), dget st.role_voice_mapping r = some c →
      dget ((runVOps o characters narrators st ops).role_voice_mapping) r = some c
  | [], _, h => h
  | _ :: ops, _, h =>
    runVOps_map_mono ops _ (vstep_map_mono h)

theorem runVOps_narr_mono {o : PyRepr} {characters narrators : List Voice} {c : TtsCfg} :
    ∀ (ops : List VOp) (st : VoiceState),
      st.narrator_voice_config = some c → c.isEmpty = false →
      (runVOps o characters narrators st ops).narrator_voice_config = some c
  | [], _, h, _ => h
  | _ :: ops, _, h, hne =>
    runVOps_narr_mono ops _ (vstep_narr_mono h hne) hne

def narratorPoolC6 : List Voice :=
  [{ gender := none, tts := [("type", .jstr "edge"), ("voice", .jstr "zh-CN-XiaoxiaoNeural")] },
   { gender := none, tts := [("type", .jstr "edge"), ("voice", .jstr "zh-CN-YunxiNeural")] }]

def cfgVoiceStr (c : Option TtsCfg) : Option String :=
  match c with
  | some cfg =>
    match dget cfg "voice" with
    | some (.jstr s) => some s
    | _ => none
  | none => none

/-- Claim C6, counterexample. streaming_processor._get_narrator_voice keeps
no cache: with a two-voice narrator pool, two calls in the same session
whose random draws differ return two different voice configurations, so the
narrator identity is not sticky there. -/
theorem c6_counterexample :
    spGetNarratorVoice narratorPoolC6 0 ≠ spGetNarratorVoice narratorPoolC6 1 ∧
      (spGetNarratorVoice narratorPoolC6 0).isSome = true ∧
      (spGetNarratorVoice narratorPoolC6 1).isSome = true := by
  refine ⟨?_, rfl, rfl⟩
  intro h
  exact absurd (congrArg cfgVoiceStr h) (by decide)

/-- Claim C6, amended: voice assignment is sticky for every identity whose
call returns a configuration: a character call that returns a configuration
records it, a later call for the same character after arbitrary interleaved
assignment calls returns the recorded configuration unchanged, and the
same holds for storyRespProcessor's narrator identity; but
streaming_processor's narrator helper keeps no state and redraws on every
call (see the counterexample). -/
theorem c6_amended (o : PyRepr) (characters narrators : List Voice) :
    (∀ (st st2 : VoiceState) (r : String) (g : Option String) (p : Nat) (c : TtsCfg),
        getRoleVoice o characters st r g p = (some c, st2) →
        dget st2.role_voice_mapping r = some c) ∧
      (∀ (ops : List VOp) (st : VoiceState) (r : String) (g : Option String)
          (p : Nat) (c : TtsCfg),
        dget st.role_voice_mapping r = some c →
        (getRoleVoice o characters (runVOps o characters narrators st ops) r g p)
          = (some c, runVOps o characters narrators st ops)) ∧
      (∀ (st st2 : VoiceState) (p : Nat) (c : TtsCfg),
        getNarratorVoice o narrators st p = (some c, st2) →
        st2.narrator_voice_config = some c ∧ c.isEmpty = false) ∧
      (∀ (ops : List VOp) (st : VoiceState) (p : Nat) (c : TtsCfg),
        st.narrator_voice_config = some c → c.isEmpty = false →
        (getNarratorVoice o narrators (runVOps o characters narrators st ops) p)
          = (some c, runVOps o characters narrators st ops)) := by
  have hrole : ∀ (st st2 : VoiceState) (r : String) (g : Option String) (p : Nat) (c : TtsCfg),
      getRoleVoice o characters st r g p = (some c, st2) →
      dget st2.role_voice_mapping r = some c := by
    intro st st2 r g p c h
    unfold getRoleVoice at h
    cases hmap : dget st.role_voice_mapping r with
    | some cfg =>
      rw [hmap] at h
      simp only [Prod.mk.injEq, Option.some.injEq] at h
      rcases h with ⟨h1, h2⟩
      subst h1; subst h2
      exact hmap
    | none =>
      rw [hmap] at h
      by_cases hc : characters.isEmpty
      · simp [hc] at h
      · simp only [hc, Bool.false_eq_true, if_false] at h
        cases hch : pyChoice (availablePool o st.used_voices (suitablePool g characters)) p with
        | none => rw [hch] at h; simp at h
        | some sel =>
          rw [hch] at h
          simp only at h
          by_cases hg : (!sel.tts.isEmpty && (dget sel.tts "type").isSome) = true
          · simp only [hg, if_true, Prod.mk.injEq, Option.some.injEq] at h
            rcases h with ⟨h1, h2⟩
            subst h1
            rw [← h2]
            exact dget_aset_self _ _ _
          · simp only [Bool.not_eq_true] at hg
            simp [hg] at h
  have hnarr : ∀ (st st2 : VoiceState) (p : Nat) (c : TtsCfg),
      getNarratorVoice o narrators st p = (some c, st2) →
      st2.narrator_voice_config = some c ∧ c.isEmpty = false := by
    intro st st2 p c h
    have hmiss : ∀ st3 : VoiceState, narratorMiss o narrators st3 p = (some c, st2) →
        st2.narrator_voice_config = some c ∧ c.isEmpty = false := by
      intro st3 hm
      unfold narratorMiss at hm
      by_cases hn : narrators.isEmpty
      · simp [hn] at hm
      · simp only [hn, Bool.false_eq_true, if_false] at hm
        cases hch : pyChoice (availablePool o st3.used_voices narrators) p with
        | none => rw [hch] at hm; simp at hm
        | some sel =>
          rw [hch] at hm
          simp only at hm
          by_cases hg : (!sel.tts.isEmpty && (dget sel.tts "type").isSome) = true
          · simp only [hg, if_true, Prod.mk.injEq, Option.some.injEq] at hm
            rcases hm with ⟨hm1, hm2⟩
            subst hm1
            rcases Bool.and_eq_true_iff.mp hg with ⟨hg1, _⟩
            refine ⟨by rw [← hm2], by simpa using hg1⟩
          · simp only [Bool.not_eq_true] at hg
            simp [hg] at hm
    unfold getNarratorVoice at h
    cases hcfg : st.narrator_voice_config with
    | some c0 =>
      rw [hcfg] at h
      by_cases hne : c0.isEmpty
      · simp only [hne, Bool.not_true, Bool.false_eq_true, if_false] at h
        exact hmiss st h
      · have hne2 : c0.isEmpty = false := by simpa using hne
        simp only [hne2, Bool.not_false, if_true, Prod.mk.injEq, Option.some.injEq] at h
        rcases h with ⟨h1, h2⟩
        subst h1; subst h2
        exact ⟨hcfg, hne2⟩
    | none =>
      rw [hcfg] at h
      exact hmiss st h
  refine ⟨hrole, ?_, hnarr, ?_⟩
  · intro ops st r g p c h
    have h2 := @runVOps_map_mono o characters narrators r c ops st h
    unfold getRoleVoice
    rw [h2]
  · intro ops st p c h hne
    have h2 := @runVOps_narr_mono o characters narrators c ops st h hne
    unfold getNarratorVoice
    rw [h2]
    simp [hne]

/-- Claim C6, witness: after a first successful character assignment, a
later call for the same character with a different gender hint and a
different random draw, separated by an interleaved narrator call, returns
the identical configuration. -/
theorem c6_amended_witness :
    getRoleVoice { pyHash := fun _ => 0, strRepr := fun _ => "" }
        [{ gender := none, tts := [("type", .jstr "edge"), ("voice", .jstr "v1")] }]
        (runVOps { pyHash := fun _ => 0, strRepr := fun _ => "" }
          [{ gender := none, tts := [("type", .jstr "edge"), ("voice", .jstr "v1")] }]
          narratorPoolC6
          { role_voice_mapping := [("hero", [("type", .jstr "edge"), ("voice", .jstr "v1")])],
            narrator_voice_config := none, used_voices := [] }
          [.narrCall 1]) "hero" (some "female") 5
      = (some [("type", .jstr "edge"), ("voice", .jstr "v1")],
          runVOps { pyHash := fun _ => 0, strRepr := fun _ => "" }
            [{ gender := none, tts := [("type", .jstr "edge"), ("voice", .jstr "v1")] }]
            narratorPoolC6
            { role_voice_mapping := [("hero", [("type", .jstr "edge"), ("voice", .jstr "v1")])],
              narrator_voice_config := none, used_voices := [] }
            [.narrCall 1]) :=
  (c6_amended { pyHash := fun _ => 0, strRepr := fun _ => "" }
      [{ gender := none, tts := [("type", .jstr "edge"), ("voice", .jstr "v1")] }]
      narratorPoolC6).2.1
    [.narrCall 1] _ "hero" (some "female") 5 _ rfl

theorem mem_poolFallback {s0 fb : List Voice} {v : Voice}
    (hsub : ∀ w ∈ s0, w ∈ fb) (h : v ∈ poolFallback s0 fb) : v ∈ fb := by
  unfold poolFallback at h
  split at h
  · exact h
  · exact hsub v h

theorem poolFallback_ne_nil {s0 fb : List Voice} (h : fb ≠ []) :
    poolFallback s0 fb ≠ [] := by
  unfold poolFallback
  split
  · exact h
  · rename_i hne
    intro hc
    rw [hc] at hne
    simp at hne

theorem mem_suitablePool {g : Option String} {characters : List Voice} {v : Voice}
    (h : v ∈ suitablePool g characters) : v ∈ characters := by
  unfold suitablePool at h
  refine mem_poolFallback ?_ h
  intro w hw
  cases g with
  | none => exact hw
  | some gs =>
    by_cases hg : gs.isEmpty
    · simpa [hg] using hw
    · simp only [hg, Bool.false_eq_true, if_false] at hw
      exact List.mem_of_mem_filter hw

theorem suitablePool_ne_nil {g : Option String} {characters : List Voice}
    (h : characters ≠ []) : suitablePool g characters ≠ [] :=
  poolFallback_ne_nil h

theorem mem_availablePool {o : PyRepr} {used : List String} {suitable : List Voice} {v : Voice}
    (h : v ∈ availablePool o used suitable) : v ∈ suitable :=
  mem_poolFallback (fun _ hw => List.mem_of_mem_filter hw) h

theorem availablePool_ne_nil {o : PyRepr} {used : List String} {suitable : List Voice}
    (h : suitable ≠ []) : availablePool o used suitable ≠ [] :=
  poolFallback_ne_nil h

theorem filter_empty_fallback {g : String} {characters : List Voice}
    (hg : g.isEmpty = false) (h : genderFilter g characters = []) :
    suitablePool (some g) characters = characters := by
  unfold suitablePool poolFallback
  simp [hg, h]

/-- Claim C7: with a non-empty character pool in which every entry is
already claimed (its voice identifier exists and is in used_voices), a
character assignment still returns a configuration for every random draw:
a claimed entry necessarily carries a truthy tts type, so the selection
guard holds whatever the pick lands on; and when the gender filter comes
back empty, the selection pool falls back to the full configured pool. -/
theorem c7_pool_exhaustion (o : PyRepr) (characters : List Voice) (st : VoiceState)
    (role_name : String) (gender : Option String) (pick : Nat)
    (hne : characters ≠ [])
    (hclaimed : ∀ v ∈ characters, ∃ vid,
      voiceUniqueId o v.tts = some vid ∧ vid ∈ st.used_voices) :
    ((getRoleVoice o characters st role_name gender pick).1.isSome = true) ∧
      (∀ g : String, g.isEmpty = false → genderFilter g characters = [] →
        suitablePool (some g) characters = characters) := by
  refine ⟨?_, fun g hg h => filter_empty_fallback hg h⟩
  unfold getRoleVoice
  cases hmap : dget st.role_voice_mapping role_name with
  | some cfg => simp
  | none =>
    have hce : characters.isEmpty = false := by
      cases characters
      · exact absurd rfl hne
      · rfl
    simp only [hce, Bool.false_eq_true, if_false]
    have hsne : suitablePool gender characters ≠ [] := suitablePool_ne_nil hne
    have hane : availablePool o st.used_voices (suitablePool gender characters) ≠ [] :=
      availablePool_ne_nil hsne
    cases hch : pyChoice (availablePool o st.used_voices (suitablePool gender characters)) pick with
    | none =>
      have := pyChoice_isSome (l := availablePool o st.used_voices
        (suitablePool gender characters)) pick hane
      rw [hch] at this
      exact absurd this (by simp)
    | some sel =>
      have hmem : sel ∈ characters :=
        mem_suitablePool (mem_availablePool (pyChoice_mem hch))
      rcases hclaimed sel hmem with ⟨vid, hvid, _⟩
      rcases voiceUniqueId_guard hvid with ⟨hg1, hg2⟩
      simp only
      have hguard : (!sel.tts.isEmpty && (dget sel.tts "type").isSome) = true := by
        rw [hg1, hg2]
        rfl
      simp [hguard]

def voicePoolC7 : List Voice :=
  [{ gender := some "male", tts := [("type", .jstr "edge"), ("voice", .jstr "v1")] }]

/-- Claim C7, witness: a single-voice pool whose only entry is already
claimed, with a gender hint matching nothing, still yields a
configuration. -/
theorem c7_pool_exhaustion_witness :
    ((getRoleVoice { pyHash := fun _ => 0, strRepr := fun _ => "" } voicePoolC7
        { role_voice_mapping := [], narrator_voice_config := none,
          used_voices := ["edge_v1"] } "hero" (some "female") 3).1.isSome = true) ∧
      suitablePool (some "female") voicePoolC7 = voicePoolC7 := by
  have h := c7_pool_exhaustion { pyHash := fun _ => 0, strRepr := fun _ => "" }
    voicePoolC7
    { role_voice_mapping := [], narrator_voice_config := none, used_voices := ["edge_v1"] }
    "hero" (some "female") 3 (by simp [voicePoolC7])
    (by
      intro v hv
      rcases List.mem_singleton.mp hv with rfl
      exact ⟨"edge_v1", rfl, by decide⟩)
  exact ⟨h.1, h.2 "female" rfl rfl⟩

/-! ## storyModeHandler: the continuation completion handlers.

The on_completion callbacks of prepare_story_continuation and
process_user_story_input decide, from the parsed response, whether the
session leaves story mode and whether the next continuation phase is
scheduled via asyncio.create_task(prepare_story_continuation). The pydantic
model's declared ended field is an abstract accessor; the AttrDict path is
concrete. -/

structure ConnState where
  in_story_mode : Bool
  continuation_interrupted : Bool
  continuation_paused : Bool
deriving DecidableEq

def dictGet (d : JVal) (k : String) : Option JVal :=
  match d with
  | .jobj fs => dget fs k
  | _ => none

/-- The getattr chain reading the ended flag: a model instance reads its
declared field with absence defaulting to False; an AttrDict reads the
stored key, a missing one reading as None; the result is used by its
Python truthiness. -/
def endedOf {μ : Type} (modelEnded : μ → Option JVal) : ParseOut μ → Bool
  | .modelInst m =>
    match modelEnded m with
    | some v => pyTruthy v
    | none => false
  | .attrDict d =>
    match dictGet d "ended" with
    | some v => pyTruthy v
    | none => false

/-- is_story_mode_active: decode the first-brace-to-last-brace slice; the
story is over only when ended is the literal boolean True; the story_mode
flag defaults to false; every failure path returns False. -/
def isStoryModeActive (content : List Char) : Bool :=
  match firstIdxOf '\x7b' content, lastIdxOf '\x7d' content with
  | some si, some ei =>
    if si < ei then
      match jdecL (sliceIncl content si ei) with
      | some d =>
        match dictGet d "ended" with
        | some (.jbool true) => false
        | _ =>
          match dictGet d "story_mode" with
          | some v => pyTruthy v
          | none => false
      | none => false
    else false
  | _, _ => false

/-- The on_completion handler of prepare_story_continuation: the returned
flag says whether the next continuation phase is scheduled. The
continuation_interrupted field written by process_user_story_input is part
of the state and is never consulted here, exactly as in the source. -/
def contCompletionStep {μ : Type} (modelEnded : μ → Option JVal)
    (parseRes : Except String (ParseOut μ)) (st : ConnState) : ConnState × Bool :=
  match parseRes with
  | .ok d =>
    if endedOf modelEnded d then ({ st with in_story_mode := false }, false)
    else (st, true)
  | .error _ => (st, true)

/-- The on_completion handler of process_user_story_input: the
is_story_mode_active check on the raw response text, then the ended
check on the parsed response. -/
def userInputCompletionStep {μ : Type} (modelEnded : μ → Option JVal)
    (content : List Char) (parseRes : Except String (ParseOut μ)) (st : ConnState) :
    ConnState × Bool :=
  if !isStoryModeActive content then ({ st with in_story_mode := false }, false)
  else
    match parseRes with
    | .ok d =>
      if endedOf modelEnded d then ({ st with in_story_mode := false }, false)
      else (st, true)
    | .error _ => (st, true)

/-- Claim C8: whenever the parsed continuation response reads as ended,
both completion handlers clear in_story_mode and do not schedule the next
continuation phase; and an absent ended flag defaults to false on both the
AttrDict path and the model path. -/
theorem c8_ended_stops_pipeline {μ : Type} (modelEnded : μ → Option JVal)
    (d : ParseOut μ) (st : ConnState) (content : List Char)
    (hended : endedOf modelEnded d = true) :
    contCompletionStep modelEnded (.ok d) st = ({ st with in_story_mode := false }, false) ∧
      userInputCompletionStep modelEnded content (.ok d) st
        = ({ st with in_story_mode := false }, false) ∧
      (∀ fs : List (String × JVal), dget fs "ended" = none →
        endedOf modelEnded (.attrDict (.jobj fs)) = false) ∧
      (∀ m : μ, modelEnded m = none → endedOf modelEnded (.modelInst m) = false) := by
  refine ⟨?_, ?_, ?_, ?_⟩
  · simp [contCompletionStep, hended]
  · unfold userInputCompletionStep
    by_cases ha : isStoryModeActive content
    · simp [ha, hended]
    · simp [ha]
  · intro fs h
    simp [endedOf, dictGet, h]
  · intro m h
    simp [endedOf, h]

/-- Claim C8, witness: a response whose object carries ended true makes the
continuation handler end story mode without scheduling a next phase. -/
theorem c8_ended_stops_pipeline_witness :
    contCompletionStep (μ := Unit) (fun _ => none)
        (.ok (.attrDict (.jobj [("ended", .jbool true)])))
        { in_story_mode := true, continuation_interrupted := false,
          continuation_paused := false }
      = ({ in_story_mode := false, continuation_interrupted := false,
           continuation_paused := false }, false) :=
  (c8_ended_stops_pipeline (μ := Unit) (fun _ => none)
    (.attrDict (.jobj [("ended", .jbool true)]))
    { in_story_mode := true, continuation_interrupted := false,
      continuation_paused := false } [] rfl).1

def stInterrupted : ConnState :=
  { in_story_mode := true, continuation_interrupted := true, continuation_paused := true }

/-- Claim C9, code behaviour at the failing input: with the session's
interruption flag set by process_user_story_input while a continuation is
in flight, that phase's completion handler still schedules the next
continuation phase when the parsed response does not read as ended: the
is_interrupted flag is written but never read anywhere, so it prevents
nothing. -/
theorem c9_interrupt_flag_ignored :
    stInterrupted.continuation_interrupted = true ∧
      contCompletionStep (μ := Unit) (fun _ => none)
          (.ok (.attrDict (.jobj [("story_seg", .jarr [])]))) stInterrupted
        = (stInterrupted, true) :=
  ⟨rfl, rfl⟩
